import Mathlib

/-!
A shallow embedding of the cryptographic storage engine of the SecureVault
repository (`src/lib/api/client.ts`, `src/lib/services/birthdays.ts`,
`src/lib/datasource.ts`, `src/lib/passwordGenerator.ts`,
`src/contexts/VaultContext.tsx`), together with theorems settling the
specification claims about it.

Bytes are modelled as natural numbers.  The platform cryptographic
primitives used by the code (Web Crypto PBKDF2, AES-GCM, SHA-256, `btoa` /
`atob`, `JSON.stringify` / `JSON.parse`, `TextEncoder` / `TextDecoder`) are
not part of the repository; they are modelled as ideal computable
primitives with exactly the interface contracts the code relies on
(determinism, collision-freeness, authenticated-decryption soundness,
injective text encodings with left inverses).  Randomness drawn by the code
(`crypto.getRandomValues`, `crypto.randomUUID`, `new Date()`) is passed in
as explicit arguments.
-/

namespace SecureVault

/-- An injective encoding of lists of naturals into naturals, used to build
the ideal (collision-free) models of the platform hash primitives. -/
def encodeList : List Nat → Nat
  | [] => 0
  | a :: l => Nat.pair a (encodeList l) + 1

/-- Model of `TextEncoder.encode`: a string as the list of its character
codes. -/
def encodeChars (s : String) : List Nat :=
  s.data.map Char.toNat

/-- Model of `TextDecoder.decode`: total (the platform decoder does not
throw in its default configuration), and a left inverse of `encodeChars`. -/
def decodeChars (bs : List Nat) : String :=
  ⟨bs.map Char.ofNat⟩

/-- An injective code of a string, via `encodeChars` and `encodeList`. -/
def encodeString (s : String) : Nat :=
  encodeList (encodeChars s)

/-- Model of the `CryptoKey` produced by `crypto.subtle.deriveKey` with
PBKDF2-HMAC-SHA256 (100000 iterations) over the password and salt.  PBKDF2
is deterministic in `(password, salt)` and is modelled as collision-free,
so the key is represented by exactly those inputs. -/
structure DerivedKey where
  password : String
  salt : List Nat
deriving DecidableEq, Repr

/-- `EncryptionService.deriveKey(password, salt)` from
`src/lib/api/client.ts`: imports the password as key material and derives
an AES-GCM key from it via PBKDF2 with the given salt.  The source performs
no validation on the password (no minimum-length check). -/
def EncryptionService.deriveKey (password : String) (salt : List Nat) : DerivedKey :=
  ⟨password, salt⟩

/-- An injective code of a derived key. -/
def keyCode (k : DerivedKey) : Nat :=
  Nat.pair (encodeString k.password) (encodeList k.salt)

/-- Ideal model of the 128-bit AES-GCM authentication tag: a value that
binds the key, the nonce and the ciphertext body (collision-free, as the
code assumes of the real tag). -/
def gcmTag (key : DerivedKey) (iv : List Nat) (body : List Nat) : Nat :=
  Nat.pair (keyCode key) (Nat.pair (encodeList iv) (encodeList body))

/-- Model of `crypto.subtle.encrypt` with AES-GCM: the ciphertext carries
the payload followed by the authentication tag. -/
def aesGcmEncrypt (key : DerivedKey) (iv : List Nat) (pt : List Nat) : List Nat :=
  pt ++ [gcmTag key iv pt]

/-- Model of `crypto.subtle.decrypt` with AES-GCM: recompute the tag over
the body and compare; on mismatch the operation fails (the promise
rejects), which the source maps to its generic error. -/
def aesGcmDecrypt (key : DerivedKey) (iv : List Nat) (ct : List Nat) : Option (List Nat) :=
  if ct = ct.dropLast ++ [gcmTag key iv ct.dropLast] then some ct.dropLast else none

/-- Model of the base64 text form produced by
`btoa(String.fromCharCode(...combined))`: an opaque injective text
representation of a byte string.  `atobBytes` below is its total left
inverse, modelling `Uint8Array.from(atob(s), c => c.charCodeAt(0))`. -/
structure B64 where
  data : List Nat
deriving DecidableEq, Repr

/-- Model of `btoa(String.fromCharCode(...bytes))`. -/
def btoaBytes (bs : List Nat) : B64 :=
  ⟨bs⟩

/-- Model of `Uint8Array.from(atob(token), c => c.charCodeAt(0))`. -/
def atobBytes (t : B64) : List Nat :=
  t.data

/-- `EncryptionService.encrypt(plaintext, password)` from
`src/lib/api/client.ts`.  The two random draws
(`crypto.getRandomValues(new Uint8Array(16))` for the salt and
`new Uint8Array(12)` for the iv) are passed in as explicit arguments.
The combined buffer is `salt ‖ iv ‖ encryptedData`, base64-encoded. -/
def EncryptionService.encrypt (salt iv : List Nat) (plaintext password : String) : B64 :=
  let key := EncryptionService.deriveKey password salt
  let encryptedData := aesGcmEncrypt key iv (encodeChars plaintext)
  btoaBytes (salt ++ iv ++ encryptedData)

/-- Result of `EncryptionService.decrypt`: the decoded plaintext, or the
single generic error thrown by the catch-all handler. -/
inductive DecryptResult where
  | ok (plaintext : String)
  | error (message : String)
deriving DecidableEq, Repr

/-- The one error message `EncryptionService.decrypt` ever throws. -/
def decryptionFailedMsg : String :=
  "Decryption failed. Invalid password or corrupted data."

/-- `EncryptionService.decrypt(ciphertext, password)` from
`src/lib/api/client.ts`: decode the token, split at the fixed offsets 16
and 28 (`slice(0,16)`, `slice(16,28)`, `slice(28)`), re-derive the key from
the password and the recovered salt, AEAD-decrypt, and map every failure to
the one generic error via the surrounding try/catch. -/
def EncryptionService.decrypt (ciphertext : B64) (password : String) : DecryptResult :=
  let combined := atobBytes ciphertext
  let salt := combined.take 16
  let iv := (combined.drop 16).take 12
  let data := combined.drop 28
  let key := EncryptionService.deriveKey password salt
  match aesGcmDecrypt key iv data with
  | some decryptedData => .ok (decodeChars decryptedData)
  | none => .error decryptionFailedMsg

/-- Ideal (collision-free) model of the `crypto.subtle.digest('SHA-256')`
primitive. -/
def sha256 (bs : List Nat) : Nat :=
  encodeList bs

/-- `EncryptionService.hashPassword(password)` from
`src/lib/api/client.ts`: the SHA-256 digest of the encoded password and
nothing else — no salt is drawn or mixed in.  The hex rendering of the
digest bytes performed by the source is a bijection on digests and is left
implicit in the model. -/
def EncryptionService.hashPassword (password : String) : Nat :=
  sha256 (encodeChars password)

/-- The `PasswordEntry` interface of `src/lib/services/birthdays.ts`
(`string | null` fields become `Option String`). -/
structure PasswordEntry where
  id : String
  title : String
  username : Option String
  password : String
  url : Option String
  category_id : Option String
  tags : List String
  notes : Option String
  strength_score : Nat
  last_used : Option String
  created_at : String
  updated_at : String
deriving DecidableEq, Repr

/-- `Omit<PasswordEntry, 'id' | 'created_at' | 'updated_at'>`: the caller
input to `addEntry`. -/
structure EntryInput where
  title : String
  username : Option String
  password : String
  url : Option String
  category_id : Option String
  tags : List String
  notes : Option String
  strength_score : Nat
  last_used : Option String
deriving DecidableEq, Repr

/-- The spread `{ ...entry, id, created_at, updated_at }` building a new
`PasswordEntry` from an `EntryInput`, a fresh id (`crypto.randomUUID()`)
and timestamps (`new Date().toISOString()`). -/
def mkEntry (e : EntryInput) (id createdAt updatedAt : String) : PasswordEntry :=
  { id := id, title := e.title, username := e.username, password := e.password,
    url := e.url, category_id := e.category_id, tags := e.tags, notes := e.notes,
    strength_score := e.strength_score, last_used := e.last_used,
    created_at := createdAt, updated_at := updatedAt }

/-- `Partial<PasswordEntry>`: every field optional.  `updated_at` is listed
for fidelity to the TS type but is always overwritten by the mutation. -/
structure EntryPatch where
  id : Option String := none
  title : Option String := none
  username : Option (Option String) := none
  password : Option String := none
  url : Option (Option String) := none
  category_id : Option (Option String) := none
  tags : Option (List String) := none
  notes : Option (Option String) := none
  strength_score : Option Nat := none
  last_used : Option (Option String) := none
  created_at : Option String := none
  updated_at : Option String := none
deriving DecidableEq, Repr

/-- The spread `{ ...e, ...entry, updated_at: new Date().toISOString() }`
applied by `updateEntry`. -/
def applyPatch (e : PasswordEntry) (p : EntryPatch) (now : String) : PasswordEntry :=
  { id := p.id.getD e.id, title := p.title.getD e.title,
    username := p.username.getD e.username, password := p.password.getD e.password,
    url := p.url.getD e.url, category_id := p.category_id.getD e.category_id,
    tags := p.tags.getD e.tags, notes := p.notes.getD e.notes,
    strength_score := p.strength_score.getD e.strength_score,
    last_used := p.last_used.getD e.last_used,
    created_at := p.created_at.getD e.created_at, updated_at := now }

/-! Model of `JSON.stringify` / `JSON.parse` over entry collections
(`Modelled from the spec` only in the sense that the platform JSON codec
is external to the repository): an injective text serialization together
with a parser that is its left inverse — exactly the contract
`saveEntries` / `getEntries` rely on.  Strings are length-prefixed in
unary ('#' marks, ';' terminator), options are tagged 'N'/'S', lists are
count-prefixed. -/

/-- Serialize one string field, length-prefixed. -/
def encStr (s : String) : List Char :=
  List.replicate s.data.length '#' ++ ';' :: s.data

/-- Parse a length-prefixed string, accumulating the unary length. -/
def decStrAux : List Char → Nat → Option (String × List Char)
  | [], _ => none
  | c :: rest, n =>
    if c = '#' then decStrAux rest (n + 1)
    else if c = ';' then some (⟨rest.take n⟩, rest.drop n)
    else none

/-- Parse one string field. -/
def decStr (l : List Char) : Option (String × List Char) :=
  decStrAux l 0

/-- Serialize a natural-number field, in unary. -/
def encNat (n : Nat) : List Char :=
  List.replicate n '#' ++ [';']

/-- Parse a natural-number field. -/
def decNatAux : List Char → Nat → Option (Nat × List Char)
  | [], _ => none
  | c :: rest, n =>
    if c = '#' then decNatAux rest (n + 1)
    else if c = ';' then some (n, rest)
    else none

/-- Parse a natural-number field. -/
def decNat (l : List Char) : Option (Nat × List Char) :=
  decNatAux l 0

/-- Serialize an optional string field. -/
def encOptStr : Option String → List Char
  | none => ['N']
  | some s => 'S' :: encStr s

/-- Parse an optional string field. -/
def decOptStr : List Char → Option (Option String × List Char)
  | [] => none
  | c :: rest =>
    if c = 'N' then some (none, rest)
    else if c = 'S' then
      match decStr rest with
      | some (s, rest2) => some (some s, rest2)
      | none => none
    else none

/-- Serialize a list of strings, count-prefixed. -/
def encStrList (ts : List String) : List Char :=
  encNat ts.length ++ ts.foldr (fun s acc => encStr s ++ acc) []

/-- Parse exactly `k` strings. -/
def decStrsN : Nat → List Char → Option (List String × List Char)
  | 0, l => some ([], l)
  | k + 1, l =>
    match decStr l with
    | some (s, rest) =>
      match decStrsN k rest with
      | some (ss, rest2) => some (s :: ss, rest2)
      | none => none
    | none => none

/-- Parse a list of strings. -/
def decStrList (l : List Char) : Option (List String × List Char) :=
  match decNat l with
  | some (k, rest) => decStrsN k rest
  | none => none

/-- Serialize one `PasswordEntry`, field by field. -/
def encEntry (e : PasswordEntry) : List Char :=
  encStr e.id ++ encStr e.title ++ encOptStr e.username ++ encStr e.password ++
  encOptStr e.url ++ encOptStr e.category_id ++ encStrList e.tags ++
  encOptStr e.notes ++ encNat e.strength_score ++ encOptStr e.last_used ++
  encStr e.created_at ++ encStr e.updated_at

/-- Parse one `PasswordEntry`. -/
def decEntry (l : List Char) : Option (PasswordEntry × List Char) := do
  let (id, l) ← decStr l
  let (title, l) ← decStr l
  let (username, l) ← decOptStr l
  let (password, l) ← decStr l
  let (url, l) ← decOptStr l
  let (categoryId, l) ← decOptStr l
  let (tags, l) ← decStrList l
  let (notes, l) ← decOptStr l
  let (strengthScore, l) ← decNat l
  let (lastUsed, l) ← decOptStr l
  let (createdAt, l) ← decStr l
  let (updatedAt, l) ← decStr l
  some (⟨id, title, username, password, url, categoryId, tags, notes,
         strengthScore, lastUsed, createdAt, updatedAt⟩, l)

/-- Parse exactly `k` entries. -/
def decEntriesN : Nat → List Char → Option (List PasswordEntry × List Char)
  | 0, l => some ([], l)
  | k + 1, l =>
    match decEntry l with
    | some (e, rest) =>
      match decEntriesN k rest with
      | some (es, rest2) => some (e :: es, rest2)
      | none => none
    | none => none

/-- Model of `JSON.stringify(entries)`: count-prefixed concatenation of the
serialized entries. -/
def serializeEntries (entries : List PasswordEntry) : String :=
  ⟨encNat entries.length ++ entries.foldr (fun e acc => encEntry e ++ acc) []⟩

/-- Model of `JSON.parse` of a serialized entry collection: fails (throws,
caught by `getEntries`) unless the whole text is a well-formed document. -/
def parseEntries (s : String) : Option (List PasswordEntry) :=
  match decNat s.data with
  | some (k, rest) =>
    match decEntriesN k rest with
    | some (es, []) => some es
    | _ => none
  | none => none

/-- The `localStorage` keys used by `LocalStorageService`
(`securevault_entries`, `securevault_categories`,
`securevault_master_hash`), as a record of stored values. -/
structure LocalStore where
  entriesBlob : Option B64
  categoriesRaw : Option String
  masterHash : Option Nat
deriving DecidableEq, Repr

/-- A browser profile with nothing stored yet. -/
def emptyStore : LocalStore :=
  ⟨none, none, none⟩

/-- `LocalStorageService.setMasterPassword` from
`src/lib/services/birthdays.ts`: hash the password with
`EncryptionService.hashPassword` and store the digest under the
master-hash key. -/
def LocalStorageService.setMasterPassword (st : LocalStore) (password : String) : LocalStore :=
  { st with masterHash := some (EncryptionService.hashPassword password) }

/-- `LocalStorageService.verifyMasterPassword`: false when no hash is
stored, else recompute and compare. -/
def LocalStorageService.verifyMasterPassword (st : LocalStore) (password : String) : Bool :=
  match st.masterHash with
  | none => false
  | some storedHash => EncryptionService.hashPassword password == storedHash

/-- `LocalStorageService.hasMasterPassword`. -/
def LocalStorageService.hasMasterPassword (st : LocalStore) : Bool :=
  st.masterHash.isSome

/-- Result of `LocalStorageService.getEntries`: the decrypted entry list,
or the error thrown by its catch block. -/
inductive EntriesResult where
  | ok (entries : List PasswordEntry)
  | error (message : String)
deriving DecidableEq, Repr

/-- `LocalStorageService.getEntries` from `src/lib/services/birthdays.ts`:
return `[]` when nothing is stored; otherwise decrypt the blob and parse
it, mapping any failure (decryption or parse) to the single
`Invalid master password` error. -/
def LocalStorageService.getEntries (st : LocalStore) (masterPassword : String) : EntriesResult :=
  match st.entriesBlob with
  | none => .ok []
  | some encrypted =>
    match EncryptionService.decrypt encrypted masterPassword with
    | .ok decrypted =>
      match parseEntries decrypted with
      | some entries => .ok entries
      | none => .error "Invalid master password"
    | .error _ => .error "Invalid master password"

/-- `LocalStorageService.saveEntries`: serialize the whole collection,
encrypt it as one token (fresh salt and iv passed explicitly), store it
under the entries key. -/
def LocalStorageService.saveEntries (st : LocalStore) (entries : List PasswordEntry)
    (masterPassword : String) (salt iv : List Nat) : LocalStore :=
  { st with
    entriesBlob := some (EncryptionService.encrypt salt iv (serializeEntries entries) masterPassword) }

/-- `LocalDataSource.loadEntries` from `src/lib/datasource.ts`: delegate to
`LocalStorageService.getEntries` with the construction-time master
password. -/
def LocalDataSource.loadEntries (masterPassword : String) (st : LocalStore) : EntriesResult :=
  LocalStorageService.getEntries st masterPassword

/-- `LocalDataSource.addEntry` from `src/lib/datasource.ts`: build the new
entry with fresh id/timestamps, load (decrypt) the existing collection,
and save (re-encrypt) the whole collection with the new entry prepended.
A load failure propagates (the awaited promise rejects). -/
def LocalDataSource.addEntry (masterPassword : String) (st : LocalStore) (entry : EntryInput)
    (newId createdAt updatedAt : String) (salt iv : List Nat) :
    Except String (PasswordEntry × LocalStore) :=
  let newEntry := mkEntry entry newId createdAt updatedAt
  match LocalDataSource.loadEntries masterPassword st with
  | .error m => .error m
  | .ok existing =>
    .ok (newEntry, LocalStorageService.saveEntries st (newEntry :: existing) masterPassword salt iv)

/-- `LocalDataSource.updateEntry`: load all, map the patch over the entry
with the matching id (stamping `updated_at`), save the whole collection. -/
def LocalDataSource.updateEntry (masterPassword : String) (st : LocalStore) (id : String)
    (patch : EntryPatch) (now : String) (salt iv : List Nat) : Except String LocalStore :=
  match LocalDataSource.loadEntries masterPassword st with
  | .error m => .error m
  | .ok existing =>
    let updated := existing.map (fun e => if e.id = id then applyPatch e patch now else e)
    .ok (LocalStorageService.saveEntries st updated masterPassword salt iv)

/-- `LocalDataSource.deleteEntry`: load all, filter the id out, save the
whole collection. -/
def LocalDataSource.deleteEntry (masterPassword : String) (st : LocalStore) (id : String)
    (salt iv : List Nat) : Except String LocalStore :=
  match LocalDataSource.loadEntries masterPassword st with
  | .error m => .error m
  | .ok existing =>
    let updated := existing.filter (fun e => e.id != id)
    .ok (LocalStorageService.saveEntries st updated masterPassword salt iv)

/-- The state held by `VaultProvider` in `src/contexts/VaultContext.tsx`:
auth flags, the cached session master password, whether a remote data
source was constructed, the in-memory entry list, and the backing
`localStorage`. -/
structure VaultProviderState where
  isGuest : Bool
  user : Option String
  masterPassword : Option String
  dataSourceActive : Bool
  entries : List PasswordEntry
  store : LocalStore
deriving DecidableEq, Repr

/-- Outcome of a `VaultProvider` mutation: the guest/local branch ran (new
provider state), the remote branch was taken (delegated to the remote data
source), or both guards failed and the function returned having done
nothing. -/
inductive ContextMutationResult where
  | applied (s : VaultProviderState)
  | remote
  | skipped
deriving DecidableEq, Repr

/-- The `else if (dataSource && user)` branch shared by the three provider
mutations. -/
def remoteBranch (s : VaultProviderState) : ContextMutationResult :=
  if s.dataSourceActive && s.user.isSome then .remote else .skipped

/-- `VaultProvider.addEntry` from `src/contexts/VaultContext.tsx`.  The
guard `isGuest && masterPassword` uses JS truthiness: a null or empty
password fails it.  When neither the guest branch nor the remote branch is
taken the function falls through and returns with no effect and no
error. -/
def VaultProvider.addEntry (s : VaultProviderState) (entry : EntryInput)
    (newId createdAt updatedAt : String) (salt iv : List Nat) : ContextMutationResult :=
  match s.masterPassword with
  | some mp =>
    if s.isGuest && mp != "" then
      let newEntry := mkEntry entry newId createdAt updatedAt
      let updatedEntries := newEntry :: s.entries
      .applied { s with entries := updatedEntries,
                        store := LocalStorageService.saveEntries s.store updatedEntries mp salt iv }
    else remoteBranch s
  | none => remoteBranch s

/-- `VaultProvider.updateEntry` from `src/contexts/VaultContext.tsx`. -/
def VaultProvider.updateEntry (s : VaultProviderState) (id : String) (patch : EntryPatch)
    (now : String) (salt iv : List Nat) : ContextMutationResult :=
  match s.masterPassword with
  | some mp =>
    if s.isGuest && mp != "" then
      let updatedEntries :=
        s.entries.map (fun e => if e.id = id then applyPatch e patch now else e)
      .applied { s with entries := updatedEntries,
                        store := LocalStorageService.saveEntries s.store updatedEntries mp salt iv }
    else remoteBranch s
  | none => remoteBranch s

/-- `VaultProvider.deleteEntry` from `src/contexts/VaultContext.tsx`. -/
def VaultProvider.deleteEntry (s : VaultProviderState) (id : String)
    (salt iv : List Nat) : ContextMutationResult :=
  match s.masterPassword with
  | some mp =>
    if s.isGuest && mp != "" then
      let updatedEntries := s.entries.filter (fun e => e.id != id)
      .applied { s with entries := updatedEntries,
                        store := LocalStorageService.saveEntries s.store updatedEntries mp salt iv }
    else remoteBranch s
  | none => remoteBranch s

/-! The strength scorer, `PasswordGenerator.calculateStrength` from
`src/lib/passwordGenerator.ts`.  JS strings are sequences of UTF-16 code
units: `password.length` counts code units, and the regexes (which carry
no `u` flag) scan the string unit by unit.  The model therefore converts
the password to its UTF-16 code units first. -/

/-- One character as its UTF-16 code units: a BMP scalar is one unit, an
astral scalar a surrogate pair. -/
def charUtf16 (c : Char) : List Nat :=
  if c.toNat < 65536 then [c.toNat]
  else [55296 + (c.toNat - 65536) / 1024, 56320 + (c.toNat - 65536) % 1024]

/-- A string as its UTF-16 code units; JS `password.length` is the length
of this list. -/
def utf16Units (s : String) : List Nat :=
  s.data.foldr (fun c acc => charUtf16 c ++ acc) []

/-- The regex class `[a-z]` applied to one UTF-16 code unit. -/
def isLowerCode (n : Nat) : Bool :=
  97 ≤ n && n ≤ 122

/-- The regex class `[A-Z]` applied to one UTF-16 code unit. -/
def isUpperCode (n : Nat) : Bool :=
  65 ≤ n && n ≤ 90

/-- The regex class `[0-9]` applied to one UTF-16 code unit. -/
def isDigitCode (n : Nat) : Bool :=
  48 ≤ n && n ≤ 57

/-- The regex class `[^a-zA-Z0-9]` applied to one UTF-16 code unit. -/
def isSymbolCode (n : Nat) : Bool :=
  !(isLowerCode n || isUpperCode n || isDigitCode n)

/-- The JS line terminators, which `.` in a regex never matches: LF, CR,
U+2028 and U+2029. -/
def isLineTermCode (n : Nat) : Bool :=
  n = 10 || n = 13 || n = 8232 || n = 8233

/-- After a first unit of the class was found: `.*` may consume any run of
non-line-terminator units, so a second unit of the class is reachable while
no line terminator has to be crossed (the candidate unit itself may be a
terminator, since `.` never has to match it). -/
def regexDotReach (p : Nat → Bool) : List Nat → Bool
  | [] => false
  | u :: rest => p u || (!isLineTermCode u && regexDotReach p rest)

/-- `/[X].*[X]/.test` over UTF-16 code units: two units of the class with
no line terminator strictly between them. -/
def regexTestRepeat (p : Nat → Bool) : List Nat → Bool
  | [] => false
  | u :: rest => (p u && regexDotReach p rest) || regexTestRepeat p rest

/-- The regex class `[a-z]` applied to one character (used by the
specification-side definitions, which speak of characters). -/
def isLowerChar (c : Char) : Bool :=
  isLowerCode c.toNat

/-- The regex class `[A-Z]` applied to one character. -/
def isUpperChar (c : Char) : Bool :=
  isUpperCode c.toNat

/-- The regex class `[0-9]` applied to one character. -/
def isDigitChar (c : Char) : Bool :=
  isDigitCode c.toNat

/-- The regex class `[^a-zA-Z0-9]` applied to one character. -/
def isSymbolChar (c : Char) : Bool :=
  isSymbolCode c.toNat

/-- The return shape of `calculateStrength`. -/
structure StrengthResult where
  score : Nat
  label : String
  color : String
deriving DecidableEq, Repr

/-- The score accumulation of `PasswordGenerator.calculateStrength` from
`src/lib/passwordGenerator.ts`: sequential additive bonuses for length
thresholds (UTF-16 `password.length`), class presence (`/[a-z]/.test` is
`any` over code units), class repetition (`/[a-z].*[a-z]/.test`, with the
JS `.`-excludes-line-terminators semantics), then `Math.min(score, 100)`. -/
def PasswordGenerator.rawScore (password : String) : Nat :=
  let units := utf16Units password
  let score : Nat := 0
  let score := if 8 ≤ units.length then score + 20 else score
  let score := if 12 ≤ units.length then score + 15 else score
  let score := if 16 ≤ units.length then score + 15 else score
  let score := if units.any isLowerCode then score + 10 else score
  let score := if units.any isUpperCode then score + 10 else score
  let score := if units.any isDigitCode then score + 10 else score
  let score := if units.any isSymbolCode then score + 10 else score
  let score := if regexTestRepeat isLowerCode units then score + 5 else score
  let score := if regexTestRepeat isUpperCode units then score + 5 else score
  let score := if regexTestRepeat isDigitCode units then score + 5 else score
  let score := if regexTestRepeat isSymbolCode units then score + 5 else score
  min score 100

/-- `PasswordGenerator.calculateStrength`: the accumulated capped score,
then label/color by thresholds. -/
def PasswordGenerator.calculateStrength (password : String) : StrengthResult :=
  let score := PasswordGenerator.rawScore password
  if 80 ≤ score then ⟨score, "Strong", "#059669"⟩
  else if 60 ≤ score then ⟨score, "Good", "#3B82F6"⟩
  else if 40 ≤ score then ⟨score, "Fair", "#F59E0B"⟩
  else ⟨score, "Weak", "#EF4444"⟩

/-- The additive heuristic exactly as the specification words it: length
bonuses, +10 per class present, +5 per class appearing at least twice,
capped at 100.  Used to compare the source implementation against the
specification sentence. -/
def strengthScoreSpec (password : String) : Nat :=
  min 100
    ((if 8 ≤ password.length then 20 else 0) +
     (if 12 ≤ password.length then 15 else 0) +
     (if 16 ≤ password.length then 15 else 0) +
     (if password.data.any isLowerChar then 10 else 0) +
     (if password.data.any isUpperChar then 10 else 0) +
     (if password.data.any isDigitChar then 10 else 0) +
     (if password.data.any isSymbolChar then 10 else 0) +
     (if 2 ≤ password.data.countP isLowerChar then 5 else 0) +
     (if 2 ≤ password.data.countP isUpperChar then 5 else 0) +
     (if 2 ≤ password.data.countP isDigitChar then 5 else 0) +
     (if 2 ≤ password.data.countP isSymbolChar then 5 else 0))

/-- The label rule exactly as the specification words it: Weak below 40,
Fair below 60, Good below 80, Strong at 80 and above. -/
def strengthLabelSpec (score : Nat) : String :=
  if score < 40 then "Weak"
  else if score < 60 then "Fair"
  else if score < 80 then "Good"
  else "Strong"

/-- A salted fast verifier as the specification describes it (a one-way
hash of the secret together with its own salt); the source's
`hashPassword` is to be compared against this. -/
def saltedVerifierSpec (secret : String) (salt : List Nat) : Nat :=
  sha256 (encodeChars secret ++ salt)

/-! Injectivity of the ideal-primitive encodings. -/

theorem encodeList_inj : ∀ {l₁ l₂ : List Nat}, encodeList l₁ = encodeList l₂ → l₁ = l₂ := by
  intro l₁
  induction l₁ with
  | nil =>
    intro l₂ h
    cases l₂ with
    | nil => rfl
    | cons b t => exact absurd h.symm (Nat.succ_ne_zero _)
  | cons a t ih =>
    intro l₂ h
    cases l₂ with
    | nil => exact absurd h (Nat.succ_ne_zero _)
    | cons b t₂ =>
      have h' : Nat.pair a (encodeList t) = Nat.pair b (encodeList t₂) :=
        Nat.add_right_cancel h
      obtain ⟨h1, h2⟩ := Nat.pair_eq_pair.mp h'
      rw [h1, ih h2]

theorem charToNat_inj {a b : Char} (h : a.toNat = b.toNat) : a = b := by
  have hab := congrArg Char.ofNat h
  simpa [Char.ofNat_toNat] using hab

theorem encodeChars_inj {s₁ s₂ : String} (h : encodeChars s₁ = encodeChars s₂) : s₁ = s₂ := by
  apply String.ext
  exact List.map_injective_iff.mpr (fun a b => charToNat_inj) h

theorem decodeChars_encodeChars (s : String) : decodeChars (encodeChars s) = s := by
  apply String.ext
  show (s.data.map Char.toNat).map Char.ofNat = s.data
  rw [List.map_map]
  have hcomp : (Char.ofNat ∘ Char.toNat) = id := funext fun c => Char.ofNat_toNat c
  rw [hcomp, List.map_id]

theorem encodeString_inj {s₁ s₂ : String} (h : encodeString s₁ = encodeString s₂) : s₁ = s₂ :=
  encodeChars_inj (encodeList_inj h)

theorem keyCode_inj {k₁ k₂ : DerivedKey} (h : keyCode k₁ = keyCode k₂) : k₁ = k₂ := by
  obtain ⟨h1, h2⟩ := Nat.pair_eq_pair.mp h
  cases k₁
  cases k₂
  simp only [DerivedKey.mk.injEq]
  exact ⟨encodeString_inj h1, encodeList_inj h2⟩

theorem gcmTag_inj {k₁ k₂ : DerivedKey} {iv₁ iv₂ b₁ b₂ : List Nat}
    (h : gcmTag k₁ iv₁ b₁ = gcmTag k₂ iv₂ b₂) : k₁ = k₂ ∧ iv₁ = iv₂ ∧ b₁ = b₂ := by
  obtain ⟨h1, h2⟩ := Nat.pair_eq_pair.mp h
  obtain ⟨h3, h4⟩ := Nat.pair_eq_pair.mp h2
  exact ⟨keyCode_inj h1, encodeList_inj h3, encodeList_inj h4⟩

theorem sha256_inj {l₁ l₂ : List Nat} (h : sha256 l₁ = sha256 l₂) : l₁ = l₂ :=
  encodeList_inj h

/-! The AEAD layer: correctness and soundness of the GCM model. -/

theorem aesGcmDecrypt_encrypt (key : DerivedKey) (iv pt : List Nat) :
    aesGcmDecrypt key iv (aesGcmEncrypt key iv pt) = some pt := by
  simp [aesGcmDecrypt, aesGcmEncrypt, List.dropLast_concat]

theorem aesGcmDecrypt_some {key : DerivedKey} {iv ct pt : List Nat}
    (h : aesGcmDecrypt key iv ct = some pt) :
    pt = ct.dropLast ∧ ct = ct.dropLast ++ [gcmTag key iv ct.dropLast] := by
  rw [aesGcmDecrypt] at h
  split_ifs at h with hc
  · cases h
    exact ⟨rfl, hc⟩

theorem aesGcmDecrypt_wrong_tag {key : DerivedKey} {iv body : List Nat} {t : Nat}
    (h : t ≠ gcmTag key iv body) :
    aesGcmDecrypt key iv (body ++ [t]) = none := by
  rw [aesGcmDecrypt, if_neg]
  intro hc
  rw [List.dropLast_concat] at hc
  have h2 := List.append_cancel_left hc
  simp only [List.cons.injEq, and_true] at h2
  exact h h2

/-! Token-level facts about `EncryptionService.encrypt` / `decrypt`. -/

theorem atobBytes_btoaBytes (bs : List Nat) : atobBytes (btoaBytes bs) = bs := rfl

theorem encrypt_data (salt iv : List Nat) (P S : String) :
    (EncryptionService.encrypt salt iv P S).data =
      salt ++ iv ++ aesGcmEncrypt (EncryptionService.deriveKey S salt) iv (encodeChars P) := rfl

theorem combined_take16 {salt iv data : List Nat} (hs : salt.length = 16) :
    (salt ++ iv ++ data).take 16 = salt := by
  rw [List.append_assoc, List.take_left' hs]

theorem combined_iv_slice {salt iv data : List Nat} (hs : salt.length = 16)
    (hi : iv.length = 12) : ((salt ++ iv ++ data).drop 16).take 12 = iv := by
  rw [List.append_assoc, List.drop_left' hs, List.take_left' hi]

theorem combined_drop28 {salt iv data : List Nat} (hs : salt.length = 16)
    (hi : iv.length = 12) : (salt ++ iv ++ data).drop 28 = data := by
  rw [List.drop_left' (by rw [List.length_append, hs, hi])]

theorem decrypt_eval (t : B64) (S : String) :
    EncryptionService.decrypt t S =
      match aesGcmDecrypt (EncryptionService.deriveKey S (t.data.take 16))
          ((t.data.drop 16).take 12) (t.data.drop 28) with
      | some pt => .ok (decodeChars pt)
      | none => .error decryptionFailedMsg := rfl

theorem decrypt_encrypt_core (P S : String) (salt iv : List Nat)
    (hs : salt.length = 16) (hi : iv.length = 12) :
    EncryptionService.decrypt (EncryptionService.encrypt salt iv P S) S = .ok P := by
  rw [decrypt_eval, encrypt_data, combined_take16 hs, combined_iv_slice hs hi,
      combined_drop28 hs hi, aesGcmDecrypt_encrypt]
  show DecryptResult.ok (decodeChars (encodeChars P)) = DecryptResult.ok P
  rw [decodeChars_encodeChars]

theorem decrypt_encrypt_wrong_secret (P S S' : String) (salt iv : List Nat)
    (hs : salt.length = 16) (hi : iv.length = 12) (hne : S' ≠ S) :
    EncryptionService.decrypt (EncryptionService.encrypt salt iv P S) S' =
      .error decryptionFailedMsg := by
  rw [decrypt_eval, encrypt_data, combined_take16 hs, combined_iv_slice hs hi,
      combined_drop28 hs hi]
  rw [show aesGcmEncrypt (EncryptionService.deriveKey S salt) iv (encodeChars P) =
        encodeChars P ++ [gcmTag ⟨S, salt⟩ iv (encodeChars P)] from rfl]
  rw [aesGcmDecrypt_wrong_tag]
  intro hteq
  have hkey := (gcmTag_inj hteq).1
  exact hne (congrArg DerivedKey.password hkey).symm

theorem decrypt_ok_split {t : B64} {S P : String}
    (h : EncryptionService.decrypt t S = .ok P) :
    t.data.drop 28 =
      (t.data.drop 28).dropLast ++
        [gcmTag (EncryptionService.deriveKey S (t.data.take 16))
          ((t.data.drop 16).take 12) ((t.data.drop 28).dropLast)] ∧
    P = decodeChars ((t.data.drop 28).dropLast) := by
  rw [decrypt_eval] at h
  cases hd : aesGcmDecrypt (EncryptionService.deriveKey S (t.data.take 16))
      ((t.data.drop 16).take 12) (t.data.drop 28) with
  | none =>
    rw [hd] at h
    exact absurd h (by simp)
  | some body =>
    rw [hd] at h
    simp only [DecryptResult.ok.injEq] at h
    obtain ⟨hb, hshape⟩ := aesGcmDecrypt_some hd
    subst hb
    exact ⟨hshape, h.symm⟩

theorem bytes_reassemble (l : List Nat) :
    l = l.take 16 ++ ((l.drop 16).take 12 ++ l.drop 28) := by
  have h28 : l.take 28 = l.take 16 ++ (l.drop 16).take 12 := List.take_add l 16 12
  calc l = l.take 28 ++ l.drop 28 := (List.take_append_drop 28 l).symm
    _ = (l.take 16 ++ (l.drop 16).take 12) ++ l.drop 28 := by rw [h28]
    _ = l.take 16 ++ ((l.drop 16).take 12 ++ l.drop 28) := List.append_assoc ..

theorem decrypt_error_msg {t : B64} {S m : String}
    (h : EncryptionService.decrypt t S = .error m) : m = decryptionFailedMsg := by
  rw [decrypt_eval] at h
  cases hd : aesGcmDecrypt (EncryptionService.deriveKey S (t.data.take 16))
      ((t.data.drop 16).take 12) (t.data.drop 28) with
  | some body => rw [hd] at h; exact absurd h (by simp)
  | none =>
    rw [hd] at h
    simp only [DecryptResult.error.injEq] at h
    exact h.symm

theorem decrypt_ok_or_generic_error (t : B64) (S : String) :
    (∃ Q, EncryptionService.decrypt t S = .ok Q) ∨
    EncryptionService.decrypt t S = .error decryptionFailedMsg := by
  cases hres : EncryptionService.decrypt t S with
  | ok Q => exact .inl ⟨Q, rfl⟩
  | error m => exact .inr (by rw [decrypt_error_msg hres])

theorem decrypt_set_tamper (P S : String) (salt iv : List Nat)
    (hs : salt.length = 16) (hi : iv.length = 12) (i b : Nat)
    (hch : (atobBytes (EncryptionService.encrypt salt iv P S)).set i b ≠
           atobBytes (EncryptionService.encrypt salt iv P S)) :
    EncryptionService.decrypt
      (btoaBytes ((atobBytes (EncryptionService.encrypt salt iv P S)).set i b)) S =
      .error decryptionFailedMsg := by
  have hrfl : atobBytes (EncryptionService.encrypt salt iv P S) =
      salt ++ iv ++ (encodeChars P ++
        [gcmTag (EncryptionService.deriveKey S salt) iv (encodeChars P)]) := rfl
  rw [hrfl] at hch ⊢
  set pt := encodeChars P with hptdef
  set tg := gcmTag (EncryptionService.deriveKey S salt) iv pt with htgdef
  set B := salt ++ iv ++ (pt ++ [tg]) with hBdef
  set B' := B.set i b with hBpdef
  have hBtake16 : B.take 16 = salt := combined_take16 hs
  have hBiv : (B.drop 16).take 12 = iv := combined_iv_slice hs hi
  have hBdrop28 : B.drop 28 = pt ++ [tg] := combined_drop28 hs hi
  have hBlen : B.length = 29 + pt.length := by
    rw [hBdef]
    simp only [List.length_append, List.length_cons, List.length_nil, hs, hi]
    omega
  have hBplen : B'.length = 29 + pt.length := by
    rw [hBpdef, List.length_set, hBlen]
  by_cases hlt : i < B.length
  · rcases decrypt_ok_or_generic_error (btoaBytes B') S with ⟨Q, hok⟩ | herr
    · exfalso
      have hshape : B'.drop 28 =
          (B'.drop 28).dropLast ++
            [gcmTag (EncryptionService.deriveKey S (B'.take 16)) ((B'.drop 16).take 12)
              ((B'.drop 28).dropLast)] := (decrypt_ok_split hok).1
      have hBlast : B.getLast? = some tg := by
        have h1 := congrArg List.getLast? hBdrop28
        rw [List.getLast?_concat] at h1
        rw [List.getLast?_drop] at h1
        rw [if_neg (by omega)] at h1
        exact h1
      have hBplast : B'.getLast? =
          some (gcmTag (EncryptionService.deriveKey S (B'.take 16)) ((B'.drop 16).take 12)
            ((B'.drop 28).dropLast)) := by
        have h1 := congrArg List.getLast? hshape
        rw [List.getLast?_concat] at h1
        rw [List.getLast?_drop] at h1
        rw [if_neg (by omega)] at h1
        exact h1
      have hmin : (16 : Nat) ⊓ 28 = 16 := by decide
      by_cases hcase : i = B.length - 1
      · -- The corrupted position is exactly the tag slot: the prefix is
        -- unchanged, so a successful check forces the corrupted byte to
        -- equal the original tag, i.e. no change at all.
        subst hcase
        have htake28 : B'.take 28 = B.take 28 := by
          rw [hBpdef, List.set_take]
          exact List.set_eq_of_length_le (by rw [List.length_take]; omega)
        have hdrop28p : B'.drop 28 = pt ++ [b] := by
          rw [hBpdef, List.drop_set, if_neg (by omega), hBdrop28,
              List.set_append_right _ _ (by omega)]
          congr 1
          have hidx : B.length - 1 - 28 - pt.length = 0 := by omega
          rw [hidx]
          rfl
        have hsalt2 : B'.take 16 = salt := by
          have h1 : (B'.take 28).take 16 = B'.take 16 := by
            rw [List.take_take, hmin]
          have h2 : (B.take 28).take 16 = B.take 16 := by
            rw [List.take_take, hmin]
          rw [← h1, htake28, h2, hBtake16]
        have hiv2 : (B'.drop 16).take 12 = iv := by
          have h1 : B'.take 28 = B'.take 16 ++ (B'.drop 16).take 12 := by
            have h := List.take_add B' 16 12
            norm_num at h
            exact h
          have h2 : B.take 28 = B.take 16 ++ (B.drop 16).take 12 := by
            have h := List.take_add B 16 12
            norm_num at h
            exact h
          rw [htake28, h2, hBtake16, hBiv] at h1
          rw [hsalt2] at h1
          exact (List.append_cancel_left h1).symm
        rw [hdrop28p, List.dropLast_concat, hsalt2, hiv2] at hshape
        have hb_tag : b = tg := by
          have h2 := List.append_cancel_left hshape
          simp only [List.cons.injEq, and_true] at h2
          rw [htgdef]
          exact h2
        have hBp_eq : B' = B := by
          calc B' = B'.take 28 ++ B'.drop 28 := (List.take_append_drop 28 B').symm
            _ = B.take 28 ++ (pt ++ [b]) := by rw [htake28, hdrop28p]
            _ = B.take 28 ++ (pt ++ [tg]) := by rw [hb_tag]
            _ = B.take 28 ++ B.drop 28 := by rw [hBdrop28]
            _ = B := List.take_append_drop 28 B
        exact hch hBp_eq
      · -- The corrupted position is not the tag slot: the surviving tag
        -- pins every component, so the corrupted buffer equals the
        -- original.
        have hlast_eq : B'.getLast? = B.getLast? := by
          rw [List.getLast?_eq_getElem?, List.getLast?_eq_getElem?, hBpdef, List.length_set]
          exact List.getElem?_set_ne hcase
        rw [hBplast, hBlast, Option.some.injEq] at hlast_eq
        obtain ⟨hkey, hiv2, hbody⟩ := gcmTag_inj hlast_eq
        have hsalt2 : B'.take 16 = salt := congrArg DerivedKey.salt hkey
        have hBp_eq : B' = B := by
          calc B' = B'.take 16 ++ ((B'.drop 16).take 12 ++ B'.drop 28) := bytes_reassemble B'
            _ = B'.take 16 ++ ((B'.drop 16).take 12 ++
                  ((B'.drop 28).dropLast ++
                    [gcmTag (EncryptionService.deriveKey S (B'.take 16)) ((B'.drop 16).take 12)
                      ((B'.drop 28).dropLast)])) :=
              congrArg (fun l => B'.take 16 ++ ((B'.drop 16).take 12 ++ l)) hshape
            _ = salt ++ (iv ++ (pt ++ [tg])) := by rw [hsalt2, hiv2, hbody, htgdef]
            _ = B := by rw [hBdef, List.append_assoc]
        exact hch hBp_eq
    · exact herr
  · rw [hBpdef, List.set_eq_of_length_le (Nat.le_of_not_lt hlt)] at hch
    exact absurd rfl hch

/-- C2: decryption under a different secret, or of a token corrupted at
any byte position, fails with the single generic DecryptionError;
`decrypt` either succeeds or returns exactly that one error (the two
failure causes are never distinguished), and it never returns a wrong
plaintext for a produced token. -/
theorem C2_uniform_failure (P S1 S2 : String) (salt iv : List Nat)
    (hs : salt.length = 16) (hi : iv.length = 12) (hne : S1 ≠ S2) :
    EncryptionService.decrypt (EncryptionService.encrypt salt iv P S1) S2 =
      .error decryptionFailedMsg ∧
    (∀ i b : Nat,
      (atobBytes (EncryptionService.encrypt salt iv P S1)).set i b ≠
        atobBytes (EncryptionService.encrypt salt iv P S1) →
      EncryptionService.decrypt
        (btoaBytes ((atobBytes (EncryptionService.encrypt salt iv P S1)).set i b)) S1 =
        .error decryptionFailedMsg) ∧
    (∀ (t : B64) (S : String),
      (∃ Q, EncryptionService.decrypt t S = .ok Q) ∨
      EncryptionService.decrypt t S = .error decryptionFailedMsg) ∧
    (∀ S Q : String,
      EncryptionService.decrypt (EncryptionService.encrypt salt iv P S1) S = .ok Q →
      S = S1 ∧ Q = P) := by
  refine ⟨decrypt_encrypt_wrong_secret P S1 S2 salt iv hs hi (Ne.symm hne),
    fun i b hch => decrypt_set_tamper P S1 salt iv hs hi i b hch,
    fun t S => decrypt_ok_or_generic_error t S,
    fun S Q hok => ?_⟩
  by_cases hSS : S = S1
  · subst hSS
    have hrt := decrypt_encrypt_core P S salt iv hs hi
    rw [hok] at hrt
    exact ⟨rfl, (DecryptResult.ok.injEq .. |>.mp hrt)⟩
  · have hw := decrypt_encrypt_wrong_secret P S1 S salt iv hs hi hSS
    rw [hok] at hw
    exact absurd hw (by simp)

/-- Witness for C2 at concrete distinct secrets. -/
theorem C2_uniform_failure_witness :
    (List.replicate 16 0).length = 16 ∧ (List.replicate 12 0).length = 12 ∧
    ("rightpass" : String) ≠ "wrongpass" ∧
    EncryptionService.decrypt
      (EncryptionService.encrypt (List.replicate 16 0) (List.replicate 12 0)
        "topsecret" "rightpass") "wrongpass" = .error decryptionFailedMsg :=
  ⟨by decide, by decide, by decide,
    (C2_uniform_failure "topsecret" "rightpass" "wrongpass"
      (List.replicate 16 0) (List.replicate 12 0) (by decide) (by decide) (by decide)).1⟩

/-- C1: for every plaintext string P and every secret string S with
len(S) ≥ 8, `EncryptionService.decrypt (EncryptionService.encrypt P S) S`
returns P.  The fresh random salt (16 bytes) and nonce (12 bytes) drawn by
`encrypt` are explicit arguments constrained to the lengths the source
draws. -/
theorem C1_round_trip (P S : String) (salt iv : List Nat)
    (hs : salt.length = 16) (hi : iv.length = 12) (hlen : 8 ≤ S.length) :
    EncryptionService.decrypt (EncryptionService.encrypt salt iv P S) S = .ok P :=
  decrypt_encrypt_core P S salt iv hs hi

/-- Witness for C1 at a concrete plaintext and secret. -/
theorem C1_round_trip_witness :
    (List.replicate 16 0).length = 16 ∧ (List.replicate 12 1).length = 12 ∧
    8 ≤ ("longpass1" : String).length ∧
    EncryptionService.decrypt
      (EncryptionService.encrypt (List.replicate 16 0) (List.replicate 12 1)
        "hunter2" "longpass1") "longpass1" = .ok "hunter2" :=
  ⟨by decide, by decide, by decide,
    C1_round_trip "hunter2" "longpass1" (List.replicate 16 0) (List.replicate 12 1)
      (by decide) (by decide) (by decide)⟩

/-- C6 counterexample: the claim says no key is ever derived from a secret
of length < 8, but `deriveKey` and `encrypt` perform no length check — with
the 3-character secret "abc" a key is derived, encryption succeeds, and the
token even decrypts back. -/
theorem C6_counterexample :
    ("abc" : String).length < 8 ∧
    EncryptionService.deriveKey "abc" (List.replicate 16 0) = ⟨"abc", List.replicate 16 0⟩ ∧
    EncryptionService.decrypt
      (EncryptionService.encrypt (List.replicate 16 0) (List.replicate 12 1) "hi" "abc")
      "abc" = .ok "hi" :=
  ⟨by decide, rfl,
    decrypt_encrypt_core "hi" "abc" (List.replicate 16 0) (List.replicate 12 1)
      (by decide) (by decide)⟩

/-- C6 (amended): key derivation performs no minimum-length validation —
for a secret of any length (including < 8) `deriveKey` derives a key and
encryption/decryption succeed; the 8-character minimum exists only as UI
form validation (`minLength` attributes), outside the encryption service. -/
theorem C6_no_min_length_check (P S : String) (salt iv : List Nat)
    (hs : salt.length = 16) (hi : iv.length = 12) :
    EncryptionService.decrypt (EncryptionService.encrypt salt iv P S) S = .ok P :=
  decrypt_encrypt_core P S salt iv hs hi

/-- Witness for the amended C6 at a concrete short secret. -/
theorem C6_no_min_length_check_witness :
    (List.replicate 16 2).length = 16 ∧ (List.replicate 12 3).length = 12 ∧
    EncryptionService.decrypt
      (EncryptionService.encrypt (List.replicate 16 2) (List.replicate 12 3) "pw" "x") "x" =
      .ok "pw" :=
  ⟨by decide, by decide,
    C6_no_min_length_check "pw" "x" (List.replicate 16 2) (List.replicate 12 3)
      (by decide) (by decide)⟩

/-- C3: every produced token encodes exactly
salt(16) ‖ nonce(12) ‖ ciphertext-with-tag, and `decrypt` splits the
decoded token at the fixed offsets 16 and 28 into salt, nonce and the
remainder before re-deriving the key from the supplied password and the
recovered salt. -/
theorem C3_token_format (P S : String) (salt iv : List Nat)
    (hs : salt.length = 16) (hi : iv.length = 12) :
    EncryptionService.encrypt salt iv P S =
      btoaBytes (salt ++ iv ++
        aesGcmEncrypt (EncryptionService.deriveKey S salt) iv (encodeChars P)) ∧
    (atobBytes (EncryptionService.encrypt salt iv P S)).take 16 = salt ∧
    ((atobBytes (EncryptionService.encrypt salt iv P S)).drop 16).take 12 = iv ∧
    (atobBytes (EncryptionService.encrypt salt iv P S)).drop 28 =
      aesGcmEncrypt (EncryptionService.deriveKey S salt) iv (encodeChars P) ∧
    ∀ S' : String,
      EncryptionService.decrypt (EncryptionService.encrypt salt iv P S) S' =
        match aesGcmDecrypt (EncryptionService.deriveKey S' salt) iv
            (aesGcmEncrypt (EncryptionService.deriveKey S salt) iv (encodeChars P)) with
        | some pt => .ok (decodeChars pt)
        | none => .error decryptionFailedMsg := by
  refine ⟨rfl, ?_, ?_, ?_, ?_⟩
  · rw [show atobBytes (EncryptionService.encrypt salt iv P S) =
        salt ++ iv ++ aesGcmEncrypt (EncryptionService.deriveKey S salt) iv (encodeChars P)
      from rfl]
    exact combined_take16 hs
  · exact combined_iv_slice hs hi
  · exact combined_drop28 hs hi
  · intro S'
    rw [decrypt_eval, encrypt_data, combined_take16 hs, combined_iv_slice hs hi,
        combined_drop28 hs hi]

/-- Witness for C3 at a concrete plaintext, secret and randomness. -/
theorem C3_token_format_witness :
    (List.replicate 16 4).length = 16 ∧ (List.replicate 12 5).length = 12 ∧
    (atobBytes (EncryptionService.encrypt (List.replicate 16 4) (List.replicate 12 5)
        "data" "secretpw")).take 16 = List.replicate 16 4 :=
  ⟨by decide, by decide,
    (C3_token_format "data" "secretpw" (List.replicate 16 4) (List.replicate 12 5)
      (by decide) (by decide)).2.1⟩

/-- C4: each encryption call draws its salt and nonce freshly; whenever the
drawn randomness of two encryptions of the same plaintext under the same
secret differs (the event that fresh random draws make true), the produced
tokens differ — the token is injective in the (salt, nonce) pair. -/
theorem C4_token_freshness (P S : String) (salt₁ iv₁ salt₂ iv₂ : List Nat)
    (hs₁ : salt₁.length = 16) (hi₁ : iv₁.length = 12)
    (hs₂ : salt₂.length = 16) (hi₂ : iv₂.length = 12)
    (hne : (salt₁, iv₁) ≠ (salt₂, iv₂)) :
    EncryptionService.encrypt salt₁ iv₁ P S ≠ EncryptionService.encrypt salt₂ iv₂ P S := by
  intro heq
  have hdata := congrArg B64.data heq
  rw [encrypt_data, encrypt_data] at hdata
  have hsalt : salt₁ = salt₂ := by
    have := congrArg (List.take 16) hdata
    rwa [combined_take16 hs₁, combined_take16 hs₂] at this
  have hiv : iv₁ = iv₂ := by
    have := congrArg (fun l => (List.drop 16 l).take 12) hdata
    simp only at this
    rwa [combined_iv_slice hs₁ hi₁, combined_iv_slice hs₂ hi₂] at this
  exact hne (by rw [hsalt, hiv])

/-- Witness for C4 at concrete distinct randomness. -/
theorem C4_token_freshness_witness :
    ((List.replicate 16 0, List.replicate 12 0) ≠ (List.replicate 16 0, List.replicate 12 7)) ∧
    EncryptionService.encrypt (List.replicate 16 0) (List.replicate 12 0) "p" "s" ≠
      EncryptionService.encrypt (List.replicate 16 0) (List.replicate 12 7) "p" "s" :=
  ⟨by decide,
    C4_token_freshness "p" "s" (List.replicate 16 0) (List.replicate 12 0)
      (List.replicate 16 0) (List.replicate 12 7)
      (by decide) (by decide) (by decide) (by decide) (by decide)⟩

/-- C5 counterexample: the claim says the stored verifier is a fast hash
of the secret together with its own salt, but `hashPassword` mixes in no
salt at all — for the concrete secret, the stored verifier equals the
unsalted digest and differs from the salt-mixing derivation at every
non-empty salt. -/
theorem C5_counterexample :
    (LocalStorageService.setMasterPassword emptyStore "hunter2master").masterHash =
      some (EncryptionService.hashPassword "hunter2master") ∧
    ¬ ∃ salt : List Nat, salt ≠ [] ∧
      (LocalStorageService.setMasterPassword emptyStore "hunter2master").masterHash =
        some (saltedVerifierSpec "hunter2master" salt) := by
  refine ⟨rfl, ?_⟩
  rintro ⟨salt, hne, heq⟩
  have hdig : EncryptionService.hashPassword "hunter2master" =
      saltedVerifierSpec "hunter2master" salt := Option.some.injEq .. |>.mp heq
  have hlists : encodeChars "hunter2master" = encodeChars "hunter2master" ++ salt :=
    sha256_inj hdig
  have hlen := congrArg List.length hlists
  rw [List.length_append] at hlen
  have : salt.length = 0 := by omega
  exact hne (List.length_eq_zero.mp this)

/-- C5 (amended): the master-secret verifier stored by `setMasterPassword`
is a fast one-way hash (SHA-256) of the secret alone — a different, faster
derivation than the slow salted PBKDF2 used for data-encryption keys, but
with no salt of its own: the stored verifier is a function of the secret
only (identical across identities/states), and determines the secret
injectively in the ideal-hash model. -/
theorem C5_verifier_unsalted (st st₂ : LocalStore) (pw pw₂ : String) :
    (LocalStorageService.setMasterPassword st pw).masterHash =
      some (EncryptionService.hashPassword pw) ∧
    EncryptionService.hashPassword pw = sha256 (encodeChars pw) ∧
    (LocalStorageService.setMasterPassword st pw).masterHash =
      (LocalStorageService.setMasterPassword st₂ pw).masterHash ∧
    (EncryptionService.hashPassword pw = EncryptionService.hashPassword pw₂ ↔ pw = pw₂) :=
  ⟨rfl, rfl, rfl,
    ⟨fun h => encodeChars_inj (encodeList_inj h), fun h => by rw [h]⟩⟩

/-- C10: when no encrypted blob exists in storage, `getEntries` returns
the empty list for every supplied master password, performing no
decryption and no master-password verification — the result does not
depend on the password or on the stored master hash. -/
theorem C10_empty_vault_load (st : LocalStore) (pw : String)
    (hblob : st.entriesBlob = none) :
    LocalStorageService.getEntries st pw = .ok [] ∧
    (∀ pw₂ : String,
      LocalStorageService.getEntries st pw = LocalStorageService.getEntries st pw₂) ∧
    (∀ h : Option Nat,
      LocalStorageService.getEntries { st with masterHash := h } pw = .ok []) := by
  refine ⟨?_, ?_, ?_⟩
  · rw [LocalStorageService.getEntries, hblob]
  · intro pw₂
    rw [LocalStorageService.getEntries, hblob, LocalStorageService.getEntries, hblob]
  · intro h
    rw [LocalStorageService.getEntries]
    have : ({ st with masterHash := h } : LocalStore).entriesBlob = none := hblob
    rw [this]

/-- Witness for C10: an empty vault with a stored master hash loads as []
even under an arbitrary (wrong) password. -/
theorem C10_empty_vault_load_witness :
    (LocalStore.mk none none (some 99)).entriesBlob = none ∧
    LocalStorageService.getEntries (LocalStore.mk none none (some 99)) "totallywrong" =
      .ok [] :=
  ⟨rfl, (C10_empty_vault_load (LocalStore.mk none none (some 99)) "totallywrong" rfl).1⟩

/-! Facts about the UTF-16 / regex model of the strength scorer. -/

theorem ite_accum (c : Prop) [inst : Decidable c] (x a : Nat) :
    (if c then x + a else x) = x + (if c then a else 0) := by
  split <;> simp

theorem charUtf16_bmp {c : Char} (h : c.toNat < 65536) : charUtf16 c = [c.toNat] := by
  rw [charUtf16, if_pos h]

theorem foldr_charUtf16_bmp : ∀ {l : List Char}, (∀ c ∈ l, c.toNat < 65536) →
    l.foldr (fun c acc => charUtf16 c ++ acc) [] = l.map Char.toNat := by
  intro l
  induction l with
  | nil => intro _; rfl
  | cons c t ih =>
    intro h
    rw [List.foldr_cons, List.map_cons, charUtf16_bmp (h c (List.mem_cons_self c t))]
    rw [ih (fun d hd => h d (List.mem_cons_of_mem _ hd))]
    rfl

theorem utf16Units_bmp {s : String} (hbmp : ∀ c ∈ s.data, c.toNat < 65536) :
    utf16Units s = s.data.map Char.toNat := by
  rw [utf16Units]
  exact foldr_charUtf16_bmp hbmp

theorem regexDotReach_eq_any {p : Nat → Bool} : ∀ {l : List Nat},
    (∀ u ∈ l, isLineTermCode u = false) → regexDotReach p l = l.any p := by
  intro l
  induction l with
  | nil => intro _; rfl
  | cons u rest ih =>
    intro h
    rw [regexDotReach, List.any_cons, h u (List.mem_cons_self u rest),
        ih (fun v hv => h v (List.mem_cons_of_mem _ hv))]
    simp

theorem regexTestRepeat_iff_countP {p : Nat → Bool} : ∀ {l : List Nat},
    (∀ u ∈ l, isLineTermCode u = false) →
    (regexTestRepeat p l = true ↔ 2 ≤ l.countP p) := by
  intro l
  induction l with
  | nil =>
    intro _
    simp [regexTestRepeat]
  | cons u rest ih =>
    intro h
    have hrest : ∀ v ∈ rest, isLineTermCode v = false :=
      fun v hv => h v (List.mem_cons_of_mem _ hv)
    rw [regexTestRepeat, regexDotReach_eq_any hrest, List.countP_cons]
    cases hp : p u with
    | false =>
      rw [show (if false = true then 1 else 0) = 0 from rfl, Nat.add_zero]
      simp only [Bool.false_and, Bool.false_or]
      exact ih hrest
    | true =>
      rw [show (if true = true then 1 else 0) = 1 from rfl]
      simp only [Bool.true_and, Bool.or_eq_true]
      rw [ih hrest, List.any_eq_true]
      constructor
      · rintro (⟨x, hx, hpx⟩ | h2)
        · have hpos : 0 < rest.countP p := List.countP_pos_iff.mpr ⟨x, hx, hpx⟩
          omega
        · omega
      · intro hge
        by_cases h2 : 2 ≤ rest.countP p
        · exact .inr h2
        · left
          have hpos : 0 < rest.countP p := by omega
          exact List.countP_pos_iff.mp hpos

theorem any_map_toNat (l : List Char) (p : Nat → Bool) :
    (l.map Char.toNat).any p = l.any (fun c => p c.toNat) := by
  induction l with
  | nil => rfl
  | cons c t ih => rw [List.map_cons, List.any_cons, List.any_cons, ih]

theorem countP_map_toNat (l : List Char) (p : Nat → Bool) :
    (l.map Char.toNat).countP p = l.countP (fun c => p c.toNat) := by
  induction l with
  | nil => rfl
  | cons c t ih => rw [List.map_cons, List.countP_cons, List.countP_cons, ih]

/-- C9 counterexample: the claim says `calculateStrength` computes exactly
the additive heuristic with "+5 per class appearing at least twice", but
the code tests repetition with `/[X].*[X]/` and JS `.` never matches a
line terminator: at "a\na" (two lowercase letters separated by a newline)
the code scores 20 while the claimed heuristic gives 25. -/
theorem C9_counterexample :
    (PasswordGenerator.calculateStrength "a\na").score = 20 ∧
    strengthScoreSpec "a\na" = 25 ∧
    (PasswordGenerator.calculateStrength "a\na").score ≠ strengthScoreSpec "a\na" :=
  ⟨by decide, by decide, by decide⟩

/-- C9 (amended): `calculateStrength` is pure and deterministic; its score
is the spec's additive heuristic with the repeat bonuses read as the JS
regex `/[X].*[X]/` — two units of the class with no line terminator
strictly between them — over UTF-16 code units, which coincides with
"appears at least twice" exactly for passwords of BMP characters with no
line terminator.  For such passwords the score equals the claimed formula;
for every password the score is capped at 100 and the label follows the
Weak/Fair/Good/Strong thresholds; the claimed concrete ordering holds. -/
theorem C9_strength_amended (pw : String)
    (hbmp : ∀ c ∈ pw.data, c.toNat < 65536)
    (hterm : ∀ c ∈ pw.data, isLineTermCode c.toNat = false) :
    (PasswordGenerator.calculateStrength pw).score = strengthScoreSpec pw ∧
    (∀ q : String, (PasswordGenerator.calculateStrength q).score ≤ 100) ∧
    (∀ q : String, (PasswordGenerator.calculateStrength q).label =
      strengthLabelSpec (PasswordGenerator.calculateStrength q).score) ∧
    (PasswordGenerator.calculateStrength "a").score <
      (PasswordGenerator.calculateStrength "aaaaaaaa").score ∧
    (PasswordGenerator.calculateStrength "aaaaaaaa").score <
      (PasswordGenerator.calculateStrength "Aa1!aaaa").score := by
  have hscore : ∀ q : String,
      (PasswordGenerator.calculateStrength q).score = PasswordGenerator.rawScore q := by
    intro q
    rw [PasswordGenerator.calculateStrength]
    split_ifs <;> rfl
  have hU : utf16Units pw = pw.data.map Char.toNat := utf16Units_bmp hbmp
  have hUterm : ∀ u ∈ utf16Units pw, isLineTermCode u = false := by
    rw [hU]
    intro u hu
    obtain ⟨c, hc, rfl⟩ := List.mem_map.mp hu
    exact hterm c hc
  have hlen : (utf16Units pw).length = pw.length := by
    rw [hU, List.length_map]
    rfl
  have hanyL : (utf16Units pw).any isLowerCode = pw.data.any isLowerChar := by
    rw [hU]
    exact any_map_toNat pw.data isLowerCode
  have hanyU : (utf16Units pw).any isUpperCode = pw.data.any isUpperChar := by
    rw [hU]
    exact any_map_toNat pw.data isUpperCode
  have hanyD : (utf16Units pw).any isDigitCode = pw.data.any isDigitChar := by
    rw [hU]
    exact any_map_toNat pw.data isDigitCode
  have hanyS : (utf16Units pw).any isSymbolCode = pw.data.any isSymbolChar := by
    rw [hU]
    exact any_map_toNat pw.data isSymbolCode
  have hcountL : (utf16Units pw).countP isLowerCode = pw.data.countP isLowerChar := by
    rw [hU]
    exact countP_map_toNat pw.data isLowerCode
  have hcountU : (utf16Units pw).countP isUpperCode = pw.data.countP isUpperChar := by
    rw [hU]
    exact countP_map_toNat pw.data isUpperCode
  have hcountD : (utf16Units pw).countP isDigitCode = pw.data.countP isDigitChar := by
    rw [hU]
    exact countP_map_toNat pw.data isDigitCode
  have hcountS : (utf16Units pw).countP isSymbolCode = pw.data.countP isSymbolChar := by
    rw [hU]
    exact countP_map_toNat pw.data isSymbolCode
  have hrepL : (regexTestRepeat isLowerCode (utf16Units pw) = true) ↔
      2 ≤ pw.data.countP isLowerChar :=
    (regexTestRepeat_iff_countP hUterm).trans (by rw [hcountL])
  have hrepU : (regexTestRepeat isUpperCode (utf16Units pw) = true) ↔
      2 ≤ pw.data.countP isUpperChar :=
    (regexTestRepeat_iff_countP hUterm).trans (by rw [hcountU])
  have hrepD : (regexTestRepeat isDigitCode (utf16Units pw) = true) ↔
      2 ≤ pw.data.countP isDigitChar :=
    (regexTestRepeat_iff_countP hUterm).trans (by rw [hcountD])
  have hrepS : (regexTestRepeat isSymbolCode (utf16Units pw) = true) ↔
      2 ≤ pw.data.countP isSymbolChar :=
    (regexTestRepeat_iff_countP hUterm).trans (by rw [hcountS])
  have hraw : PasswordGenerator.rawScore pw = strengthScoreSpec pw := by
    rw [PasswordGenerator.rawScore, strengthScoreSpec]
    simp only [ite_accum, Nat.zero_add]
    rw [Nat.min_comm]
    congr 1
    rw [hlen, hanyL, hanyU, hanyD, hanyS]
    rw [if_congr hrepL rfl rfl, if_congr hrepU rfl rfl,
        if_congr hrepD rfl rfl, if_congr hrepS rfl rfl]
  have hbound : ∀ q : String, PasswordGenerator.rawScore q ≤ 100 := by
    intro q
    rw [PasswordGenerator.rawScore]
    exact Nat.min_le_right _ _
  have hlabel0 : ∀ q : String,
      (PasswordGenerator.calculateStrength q).label =
        (if 80 ≤ PasswordGenerator.rawScore q then "Strong"
         else if 60 ≤ PasswordGenerator.rawScore q then "Good"
         else if 40 ≤ PasswordGenerator.rawScore q then "Fair" else "Weak") := by
    intro q
    rw [PasswordGenerator.calculateStrength]
    split_ifs <;> rfl
  have hlabelgen : ∀ s : Nat,
      (if 80 ≤ s then "Strong" else if 60 ≤ s then "Good"
       else if 40 ≤ s then "Fair" else "Weak") = strengthLabelSpec s := by
    intro s
    rw [strengthLabelSpec]
    split_ifs <;> first | rfl | omega
  refine ⟨(hscore pw).trans hraw, ?_, ?_, ?_, ?_⟩
  · intro q
    rw [hscore q]
    exact hbound q
  · intro q
    rw [hlabel0 q, hlabelgen, hscore q]
  · rw [hscore "a", hscore "aaaaaaaa"]
    decide
  · rw [hscore "aaaaaaaa", hscore "Aa1!aaaa"]
    decide

/-- Witness for the amended C9 at a concrete BMP, terminator-free
password. -/
theorem C9_strength_amended_witness :
    (∀ c ∈ ("Aa1!aaaa" : String).data, c.toNat < 65536) ∧
    (∀ c ∈ ("Aa1!aaaa" : String).data, isLineTermCode c.toNat = false) ∧
    (PasswordGenerator.calculateStrength "Aa1!aaaa").score = strengthScoreSpec "Aa1!aaaa" :=
  ⟨by decide, by decide, (C9_strength_amended "Aa1!aaaa" (by decide) (by decide)).1⟩

/-! Round-trip of the serialization model: the parser is a left inverse of
the serializer, the contract `getEntries` relies on after decryption. -/

theorem decStrAux_replicate (k : Nat) (rest : List Char) :
    ∀ n, decStrAux (List.replicate k '#' ++ ';' :: rest) n =
      some (⟨rest.take (n + k)⟩, rest.drop (n + k)) := by
  induction k with
  | zero =>
    intro n
    simp [decStrAux]
  | succ k ih =>
    intro n
    rw [List.replicate_succ, List.cons_append]
    rw [show decStrAux ('#' :: (List.replicate k '#' ++ ';' :: rest)) n =
        decStrAux (List.replicate k '#' ++ ';' :: rest) (n + 1) from by
      simp [decStrAux]]
    rw [ih (n + 1)]
    have harith : n + 1 + k = n + (k + 1) := by omega
    rw [harith]

theorem decStr_encStr (s : String) (tail : List Char) :
    decStr (encStr s ++ tail) = some (s, tail) := by
  rw [decStr, encStr, List.append_assoc, List.cons_append]
  rw [decStrAux_replicate s.data.length (s.data ++ tail) 0]
  rw [Nat.zero_add, List.take_left, List.drop_left]

theorem decNatAux_replicate (k : Nat) (rest : List Char) :
    ∀ n, decNatAux (List.replicate k '#' ++ ';' :: rest) n = some (n + k, rest) := by
  induction k with
  | zero =>
    intro n
    simp [decNatAux]
  | succ k ih =>
    intro n
    rw [List.replicate_succ, List.cons_append]
    rw [show decNatAux ('#' :: (List.replicate k '#' ++ ';' :: rest)) n =
        decNatAux (List.replicate k '#' ++ ';' :: rest) (n + 1) from by
      simp [decNatAux]]
    rw [ih (n + 1)]
    have harith : n + 1 + k = n + (k + 1) := by omega
    rw [harith]

theorem decNat_encNat (n : Nat) (tail : List Char) :
    decNat (encNat n ++ tail) = some (n, tail) := by
  rw [decNat, encNat, List.append_assoc, List.singleton_append]
  rw [decNatAux_replicate n tail 0, Nat.zero_add]

theorem decOptStr_encOptStr (o : Option String) (tail : List Char) :
    decOptStr (encOptStr o ++ tail) = some (o, tail) := by
  cases o with
  | none => simp [encOptStr, decOptStr]
  | some s =>
    rw [encOptStr, List.cons_append]
    rw [show decOptStr ('S' :: (encStr s ++ tail)) =
        (match decStr (encStr s ++ tail) with
         | some (s2, rest2) => some (some s2, rest2)
         | none => none) from by simp [decOptStr]]
    rw [decStr_encStr]

theorem decStrsN_enc (ts : List String) (tail : List Char) :
    decStrsN ts.length (ts.foldr (fun s acc => encStr s ++ acc) [] ++ tail) =
      some (ts, tail) := by
  induction ts with
  | nil => simp [decStrsN]
  | cons t ts ih =>
    rw [List.length_cons, List.foldr_cons, List.append_assoc]
    simp [decStrsN, decStr_encStr, ih]

theorem decStrList_encStrList (ts : List String) (tail : List Char) :
    decStrList (encStrList ts ++ tail) = some (ts, tail) := by
  rw [encStrList, List.append_assoc]
  simp [decStrList, decNat_encNat, decStrsN_enc]

set_option maxHeartbeats 1600000 in
theorem decEntry_encEntry (e : PasswordEntry) (tail : List Char) :
    decEntry (encEntry e ++ tail) = some (e, tail) := by
  rw [encEntry]
  simp only [List.append_assoc]
  simp only [decEntry, Option.bind_eq_bind]
  rw [decStr_encStr]
  simp only [Option.some_bind]
  rw [decStr_encStr]
  simp only [Option.some_bind]
  rw [decOptStr_encOptStr]
  simp only [Option.some_bind]
  rw [decStr_encStr]
  simp only [Option.some_bind]
  rw [decOptStr_encOptStr]
  simp only [Option.some_bind]
  rw [decOptStr_encOptStr]
  simp only [Option.some_bind]
  rw [decStrList_encStrList]
  simp only [Option.some_bind]
  rw [decOptStr_encOptStr]
  simp only [Option.some_bind]
  rw [decNat_encNat]
  simp only [Option.some_bind]
  rw [decOptStr_encOptStr]
  simp only [Option.some_bind]
  rw [decStr_encStr]
  simp only [Option.some_bind]
  rw [decStr_encStr]
  simp only [Option.some_bind]

theorem decEntriesN_enc (es : List PasswordEntry) (tail : List Char) :
    decEntriesN es.length (es.foldr (fun e acc => encEntry e ++ acc) [] ++ tail) =
      some (es, tail) := by
  induction es with
  | nil => simp [decEntriesN]
  | cons e es ih =>
    rw [List.length_cons, List.foldr_cons, List.append_assoc]
    simp [decEntriesN, decEntry_encEntry, ih]

theorem parseEntries_serializeEntries (es : List PasswordEntry) :
    parseEntries (serializeEntries es) = some es := by
  have h := decEntriesN_enc es []
  rw [List.append_nil] at h
  simp [parseEntries, serializeEntries, decNat_encNat, h]

theorem getEntries_saveEntries (st : LocalStore) (entries : List PasswordEntry)
    (mp : String) (salt iv : List Nat) (hs : salt.length = 16) (hi : iv.length = 12) :
    LocalStorageService.getEntries
      (LocalStorageService.saveEntries st entries mp salt iv) mp = .ok entries := by
  simp only [LocalStorageService.saveEntries, LocalStorageService.getEntries]
  rw [decrypt_encrypt_core (serializeEntries entries) mp salt iv hs hi]
  simp [parseEntries_serializeEntries]

/-- C8: in the Local backend every mutation loads (decrypts) the whole
stored blob, applies the change to the entry list in memory, re-serializes
the full collection, re-encrypts it, and stores the whole blob back as a
single unit; in particular, adding an entry to an empty vault and loading
again returns exactly that one entry with its plaintext secret. -/
theorem C8_local_mutations_whole_blob (mp : String) (st : LocalStore)
    (entry : EntryInput) (newId createdAt updatedAt now eid : String)
    (patch : EntryPatch) (salt iv : List Nat) (existing : List PasswordEntry)
    (hs : salt.length = 16) (hi : iv.length = 12)
    (hload : LocalDataSource.loadEntries mp st = .ok existing) :
    LocalDataSource.addEntry mp st entry newId createdAt updatedAt salt iv =
      .ok (mkEntry entry newId createdAt updatedAt,
        LocalStorageService.saveEntries st
          (mkEntry entry newId createdAt updatedAt :: existing) mp salt iv) ∧
    LocalDataSource.updateEntry mp st eid patch now salt iv =
      .ok (LocalStorageService.saveEntries st
        (existing.map (fun e => if e.id = eid then applyPatch e patch now else e)) mp salt iv) ∧
    LocalDataSource.deleteEntry mp st eid salt iv =
      .ok (LocalStorageService.saveEntries st
        (existing.filter (fun e => e.id != eid)) mp salt iv) ∧
    (LocalStorageService.saveEntries st
        (mkEntry entry newId createdAt updatedAt :: existing) mp salt iv).entriesBlob =
      some (EncryptionService.encrypt salt iv
        (serializeEntries (mkEntry entry newId createdAt updatedAt :: existing)) mp) ∧
    LocalDataSource.loadEntries mp
      (LocalStorageService.saveEntries st
        (mkEntry entry newId createdAt updatedAt :: existing) mp salt iv) =
      .ok (mkEntry entry newId createdAt updatedAt :: existing) ∧
    (st.entriesBlob = none →
      existing = [] ∧ (mkEntry entry newId createdAt updatedAt).password = entry.password) := by
  refine ⟨?_, ?_, ?_, rfl, ?_, ?_⟩
  · rw [LocalDataSource.addEntry, hload]
  · rw [LocalDataSource.updateEntry, hload]
  · rw [LocalDataSource.deleteEntry, hload]
  · rw [LocalDataSource.loadEntries]
    exact getEntries_saveEntries st
      (mkEntry entry newId createdAt updatedAt :: existing) mp salt iv hs hi
  · intro hb
    have hempty : LocalDataSource.loadEntries mp st = .ok [] := by
      simp [LocalDataSource.loadEntries, LocalStorageService.getEntries, hb]
    rw [hempty] at hload
    exact ⟨(EntriesResult.ok.injEq .. |>.mp hload).symm, rfl⟩

/-- Witness for C8: scenario D on an empty vault with a concrete entry. -/
theorem C8_local_mutations_whole_blob_witness :
    (List.replicate 16 0).length = 16 ∧ (List.replicate 12 0).length = 12 ∧
    LocalDataSource.loadEntries "vaultpass" emptyStore = .ok [] ∧
    LocalDataSource.loadEntries "vaultpass"
      (LocalStorageService.saveEntries emptyStore
        [mkEntry ⟨"Gmail", none, "hunter2", none, none, [], none, 0, none⟩ "id-1" "t1" "t1"]
        "vaultpass" (List.replicate 16 0) (List.replicate 12 0)) =
      .ok [mkEntry ⟨"Gmail", none, "hunter2", none, none, [], none, 0, none⟩ "id-1" "t1" "t1"] :=
  ⟨by decide, by decide, rfl,
    (C8_local_mutations_whole_blob "vaultpass" emptyStore
      ⟨"Gmail", none, "hunter2", none, none, [], none, 0, none⟩ "id-1" "t1" "t1" "now" "eid"
      {} (List.replicate 16 0) (List.replicate 12 0) [] (by decide) (by decide)
      rfl).2.2.2.2.1⟩

/-- C7 counterexample: with the gate not unlocked (guest mode, no cached
master password, no remote data source) the provider mutations do not fail
with LockedError — no such error exists in the code — they return having
silently done nothing. -/
theorem C7_counterexample :
    VaultProvider.addEntry ⟨true, none, none, false, [], emptyStore⟩
      ⟨"Gmail", none, "hunter2", none, none, [], none, 0, none⟩ "id1" "t" "t" [] [] =
      .skipped ∧
    VaultProvider.updateEntry ⟨true, none, none, false, [], emptyStore⟩ "id1" {} "t" [] [] =
      .skipped ∧
    VaultProvider.deleteEntry ⟨true, none, none, false, [], emptyStore⟩ "id1" [] [] =
      .skipped :=
  ⟨rfl, rfl, rfl⟩

/-- C7 (amended): while the provider holds no session master password and
no remote data source is configured, `addEntry` / `updateEntry` /
`deleteEntry` fall through both guard branches and silently do nothing:
they raise no error (the code defines no LockedError) and perform no
write. -/
theorem C7_locked_mutations_noop (s : VaultProviderState) (entry : EntryInput)
    (newId createdAt updatedAt now eid : String) (patch : EntryPatch) (salt iv : List Nat)
    (hmp : s.masterPassword = none) (hds : s.dataSourceActive = false) :
    VaultProvider.addEntry s entry newId createdAt updatedAt salt iv = .skipped ∧
    VaultProvider.updateEntry s eid patch now salt iv = .skipped ∧
    VaultProvider.deleteEntry s eid salt iv = .skipped := by
  refine ⟨?_, ?_, ?_⟩
  · simp [VaultProvider.addEntry, remoteBranch, hmp, hds]
  · simp [VaultProvider.updateEntry, remoteBranch, hmp, hds]
  · simp [VaultProvider.deleteEntry, remoteBranch, hmp, hds]

/-- Witness for the amended C7 at a concrete locked provider state. -/
theorem C7_locked_mutations_noop_witness :
    (⟨true, none, none, false, [], emptyStore⟩ : VaultProviderState).masterPassword = none ∧
    VaultProvider.deleteEntry ⟨true, none, none, false, [], emptyStore⟩ "x" [] [] =
      .skipped :=
  ⟨rfl, (C7_locked_mutations_noop ⟨true, none, none, false, [], emptyStore⟩
    ⟨"t", none, "p", none, none, [], none, 0, none⟩ "i" "c" "u" "n" "x" {} [] []
    rfl rfl).2.2⟩

end SecureVault
